import Mathlib

/-!
Verification of the data-preparation routines of the pothole-segmentation
repository (`data_preparation.ipynb`).

The two core transforms are shallowly embedded:

* `convert_polygons_to_bboxes`: per label file, each whitespace-separated line
  is parsed as a list of floats (a failing `float()` raises `ValueError`),
  lines with fewer than 6 parsed values are skipped, and the remaining lines
  are turned into `class_id x_center y_center width height` records formatted
  with 6 decimals and joined by newlines.
* `extract_masks_and_bboxes`: per label file plus an image shape `(H, W)`,
  polygon lines are rasterized into a single binary accumulator mask, the mask
  is split by 8-connectivity connected-component labeling, and per-component
  binary masks plus corner-form boxes are returned.

Modelling conventions:

* Python floats are modelled as rationals (`ℚ`); the source values of the
  claims are exactly representable, so no binary-float rounding is observable
  in any statement proved below.
* a whitespace token of a label line is modelled by its `float()` parse
  outcome (`Tok.num q` for a token parsing to the value `q`, `Tok.bad` for a
  token on which `float()` raises `ValueError`);
* raised exceptions are modelled by `Except.error` (`PyErr.valueError` for
  `float()` failures, `PyErr.indexError` for out-of-range list accesses);
* `cv2.fillPoly` (an external library primitive) is modelled as an even-odd
  point-in-polygon rasterization including boundary pixels; none of the
  proved claims depends on which pixels a polygon fills, only on the result
  being a binary mask;
* `cv2.connectedComponentsWithStats` (an external library primitive) is
  modelled as a raster-order seed scan with stack-based flood fill, label 0
  being background, and per-label stats `(left, top, width, height, area)`
  given by the pixel-extent statistics of the labelled set;
* `round()` of Python (banker's rounding) is `pyRound`; the `%.6f` format is
  modelled as rounding to the nearest millionth (exact on every value
  occurring in the claims);
* the `"-0.000000"` display of tiny negative floats is not modelled (all
  formatted values of the claims are nonnegative).
-/

namespace PotholePrep

/-- Minimum of a list, mirroring Python's `min(...)`; the `default` branch is
unreachable at every call site below (the argument is provably nonempty
there, since converted lines have at least 6 parsed values). -/
def listMin {α : Type} [LinearOrder α] [Inhabited α] : List α → α
  | [] => default
  | x :: xs => xs.foldl min x

/-- Maximum of a list, mirroring Python's `max(...)`; same unreachable
`default` branch as `listMin`. -/
def listMax {α : Type} [LinearOrder α] [Inhabited α] : List α → α
  | [] => default
  | x :: xs => xs.foldl max x

/-- Outcome of `float()` on one whitespace-separated token of a label line:
`num q` when the token parses to the value `q`, `bad` when `float()` raises
`ValueError`. -/
inductive Tok : Type where
  | num (q : ℚ)
  | bad
deriving DecidableEq

/-- Python exceptions relevant to the two transforms. -/
inductive PyErr : Type where
  | valueError
  | indexError
deriving DecidableEq

instance {ε α : Type} [DecidableEq ε] [DecidableEq α] : DecidableEq (Except ε α) :=
  fun a b =>
    match a, b with
    | .error e, .error e' => decidable_of_iff (e = e') (by simp)
    | .ok v, .ok v' => decidable_of_iff (v = v') (by simp)
    | .error _, .ok _ => isFalse (by simp)
    | .ok _, .error _ => isFalse (by simp)

/-- Embeds `list(map(float, line.strip().split()))` /
`[float(x) for x in line.strip().split()]`: all tokens are parsed; a single
bad token makes the whole expression raise (`none`). -/
def floatList : List Tok → Option (List ℚ)
  | [] => some []
  | Tok.num q :: ts => (floatList ts).map (fun l => q :: l)
  | Tok.bad :: _ => none

/-- Elements at even indices: `coords[0::2]`. -/
def evens : List ℚ → List ℚ
  | [] => []
  | [x] => [x]
  | x :: _ :: rest => x :: evens rest

/-- Elements at odd indices: `coords[1::2]`. -/
def odds : List ℚ → List ℚ
  | [] => []
  | _ :: rest => evens rest

/-- The list of (x, y) vertex pairs of a coordinate list; a dangling final
coordinate is dropped.  This is the specification-side notion of the
"vertices" of a polygon record. -/
def vertexList : List ℚ → List (ℚ × ℚ)
  | x :: y :: rest => (x, y) :: vertexList rest
  | _ => []

/-- Python's `round()` on an exact rational value: round half to even. -/
def pyRound (q : ℚ) : ℤ :=
  let f : ℤ := Int.fdiv q.num (q.den : ℤ)
  if q - (f : ℚ) < 1/2 then f
  else if (1 : ℚ)/2 < q - (f : ℚ) then f + 1
  else if f % 2 = 0 then f else f + 1

/-- Decimal digit character of `n` (callers pass `_ % 10`). -/
def digitChar (n : ℕ) : Char :=
  match n with
  | 0 => '0' | 1 => '1' | 2 => '2' | 3 => '3' | 4 => '4'
  | 5 => '5' | 6 => '6' | 7 => '7' | 8 => '8' | _ => '9'

/-- The 6 decimal digits of `n < 10^6`, zero-padded. -/
def sixDigits (n : ℕ) : String :=
  String.mk [digitChar (n / 100000 % 10), digitChar (n / 10000 % 10),
    digitChar (n / 1000 % 10), digitChar (n / 100 % 10),
    digitChar (n / 10 % 10), digitChar (n % 10)]

/-- Embeds the Python format specifier `{v:.6f}`: fixed-point notation with
exactly 6 digits after the decimal point. -/
def format6 (q : ℚ) : String :=
  (if pyRound (q * 1000000) < 0 then "-" else "") ++
    Nat.repr ((pyRound (q * 1000000)).natAbs / 1000000) ++ "." ++
    sixDigits ((pyRound (q * 1000000)).natAbs % 1000000)

/-- Embeds `'\n'.join(lines)`: separator between elements only, so no
trailing newline after the last record. -/
def joinLines : List String → String
  | [] => ""
  | [l] => l
  | l :: l' :: rest => l ++ "\n" ++ joinLines (l' :: rest)

/-- Embeds `str.endswith(suffix)`. -/
def pyEndsWith (s suf : String) : Bool := List.isSuffixOf suf.data s.data

/-! ## Polygon → BBox converter (`convert_polygons_to_bboxes`) -/

/-- The `(x_center, y_center, width, height)` quadruple computed for one
line's parsed float list `parts`, exactly as in the source:
`coords = parts[1:]`, `x_coords = coords[0::2]`, `y_coords = coords[1::2]`,
extrema, midpoint center and extrema-span width/height. -/
def bboxOfParts (parts : List ℚ) : ℚ × ℚ × ℚ × ℚ :=
  ((listMin (evens (parts.drop 1)) + listMax (evens (parts.drop 1))) / 2,
   (listMin (odds (parts.drop 1)) + listMax (odds (parts.drop 1))) / 2,
   listMax (evens (parts.drop 1)) - listMin (evens (parts.drop 1)),
   listMax (odds (parts.drop 1)) - listMin (odds (parts.drop 1)))

/-- The emitted record
`f"{class_id} {x_center:.6f} {y_center:.6f} {width:.6f} {height:.6f}"`. -/
def recordOf (cid : ℤ) (parts : List ℚ) : String :=
  Int.repr cid ++ " " ++ format6 (bboxOfParts parts).1 ++ " " ++
    format6 (bboxOfParts parts).2.1 ++ " " ++
    format6 (bboxOfParts parts).2.2.1 ++ " " ++
    format6 (bboxOfParts parts).2.2.2

/-- Outcome of the converter's loop body on one line: an unhandled
`ValueError`, a silent skip (`len(parts) < 6`, where `parts` includes the
class id), or an appended bbox record. -/
inductive LineResult : Type where
  | err
  | skip
  | emit (s : String)
deriving DecidableEq

/-- One iteration of the converter's per-line loop. -/
def processLine (cid : ℤ) (line : List Tok) : LineResult :=
  match floatList line with
  | none => .err
  | some parts => if parts.length < 6 then .skip else .emit (recordOf cid parts)

/-- The record a line contributes to `bbox_lines` (`none` when skipped or
when the line would raise). -/
def emitOf (cid : ℤ) (line : List Tok) : Option String :=
  match processLine cid line with
  | .emit s => some s
  | _ => none

/-- The `bbox_lines` list accumulated over a label file's lines; an
unhandled `ValueError` aborts the whole conversion. -/
def convertFileLines (cid : ℤ) : List (List Tok) → Except PyErr (List String)
  | [] => .ok []
  | l :: ls =>
    match processLine cid l with
    | .err => .error .valueError
    | .skip => convertFileLines cid ls
    | .emit s => (convertFileLines cid ls).map (fun rest => s :: rest)

/-- The text written to the output bbox file: `'\n'.join(bbox_lines)`. -/
def convertFileContent (cid : ℤ) (lines : List (List Tok)) : Except PyErr String :=
  (convertFileLines cid lines).map joinLines

/-- The converter's directory loop: files not ending in `.txt` are skipped,
each remaining file is converted, and the resulting `(filename, content)`
pairs are collected in listing order. -/
def convertDir (cid : ℤ) : List (String × List (List Tok)) → Except PyErr (List (String × String))
  | [] => .ok []
  | (name, lines) :: fs =>
    if pyEndsWith name ".txt" = true then
      match convertFileContent cid lines, convertDir cid fs with
      | .error e, _ => .error e
      | .ok _, .error e => .error e
      | .ok content, .ok rest => .ok ((name, content) :: rest)
    else convertDir cid fs

/-- Writes one file into a directory store, overwriting an existing file of
the same name in place. -/
def writeFile (name content : String) : List (String × String) → List (String × String)
  | [] => [(name, content)]
  | (n, c) :: rest =>
    if n = name then (n, content) :: rest else (n, c) :: writeFile name content rest

/-- Writes a batch of output files in order. -/
def writeAll (outs : List (String × String)) (store : List (String × String)) :
    List (String × String) :=
  outs.foldl (fun st pr => writeFile pr.1 pr.2 st) store

/-- Looks a file's content up in a directory store. -/
def findVal (name : String) : List (String × String) → Option String
  | [] => none
  | (n, c) :: rest => if n = name then some c else findVal name rest

/-- The file-system state a converter run touches: the label directory
(read-only input) and the bbox directory (output). -/
structure DirState : Type where
  labelFiles : List (String × List (List Tok))
  bboxFiles : List (String × String)
deriving DecidableEq

/-- One full run of `convert_polygons_to_bboxes(label_dir, bbox_dir, cid)`
on distinct label and bbox directories: reads the label files, writes each
converted output into the bbox directory. -/
def runConvert (cid : ℤ) (s : DirState) : Except PyErr DirState :=
  (convertDir cid s.labelFiles).map
    (fun outs => DirState.mk s.labelFiles (writeAll outs s.bboxFiles))

/-! ## Mask & BBox extractor (`extract_masks_and_bboxes`) -/

/-- Embeds the vertex-pairing loop
`for i in range(0, len(coords), 2): polygon.append((int(round(coords[i]*w)), int(round(coords[i+1]*h))))`;
a dangling final coordinate makes `coords[i+1]` raise `IndexError`. -/
def buildPoly (w h : ℕ) : List ℚ → Except PyErr (List (ℤ × ℤ))
  | [] => .ok []
  | [_] => .error .indexError
  | x :: y :: rest =>
    (buildPoly w h rest).map
      (fun ps => (pyRound (x * (w : ℚ)), pyRound (y * (h : ℚ))) :: ps)

/-- One line of the extractor's parse loop: `ValueError` on a bad token,
silent skip when `len(coords) < 6` (here `coords = items[1:]`, the class id
excluded), otherwise the integer-pixel polygon. -/
def lineToPolygon (w h : ℕ) (line : List Tok) : Except PyErr (Option (List (ℤ × ℤ))) :=
  match floatList line with
  | none => .error .valueError
  | some items =>
    if (items.drop 1).length < 6 then .ok none
    else (buildPoly w h (items.drop 1)).map (fun p => some p)

/-- All polygons of a label file, in line order; the first raising line
aborts the extraction. -/
def parsePolys (w h : ℕ) : List (List Tok) → Except PyErr (List (List (ℤ × ℤ)))
  | [] => .ok []
  | l :: ls =>
    match lineToPolygon w h l with
    | .error e => .error e
    | .ok none => parsePolys w h ls
    | .ok (some poly) => (parsePolys w h ls).map (fun ps => poly :: ps)

/-- Point `p` lies on the closed segment from `a` to `b` (all integer
coordinates). -/
def onSeg (a b p : ℤ × ℤ) : Bool :=
  decide ((b.1 - a.1) * (p.2 - a.2) = (b.2 - a.2) * (p.1 - a.1) ∧
    min a.1 b.1 ≤ p.1 ∧ p.1 ≤ max a.1 b.1 ∧ min a.2 b.2 ≤ p.2 ∧ p.2 ≤ max a.2 b.2)

/-- The horizontal ray from `p` in the +x direction crosses the edge from
`a` to `b` (half-open vertical range, so shared vertices are not counted
twice). -/
def rayCrosses (a b p : ℤ × ℤ) : Bool :=
  if a.2 ≤ p.2 ∧ p.2 < b.2 then
    decide ((p.1 - a.1) * (b.2 - a.2) < (b.1 - a.1) * (p.2 - a.2))
  else if b.2 ≤ p.2 ∧ p.2 < a.2 then
    decide ((b.1 - a.1) * (p.2 - a.2) < (p.1 - a.1) * (b.2 - a.2))
  else false

/-- The edges of a polygon, the closing edge from last to first vertex
included (as `cv2.fillPoly` closes contours automatically). -/
def polyEdges (poly : List (ℤ × ℤ)) : List ((ℤ × ℤ) × (ℤ × ℤ)) :=
  poly.zip (poly.drop 1 ++ poly.take 1)

/-- Model of the region filled by `cv2.fillPoly` for one contour: even-odd
rule, boundary included.  `p` is an `(x, y)` point. -/
def inPoly (poly : List (ℤ × ℤ)) (p : ℤ × ℤ) : Bool :=
  (polyEdges poly).any (fun e => onSeg e.1 e.2 p) ||
    ((polyEdges poly).countP (fun e => rayCrosses e.1 e.2 p)) % 2 == 1

/-- Pixel `(row, col)` lies inside an `H × W` image. -/
def inGrid (h w : ℕ) (p : ℤ × ℤ) : Bool :=
  decide (0 ≤ p.1 ∧ p.1 < (h : ℤ) ∧ 0 ≤ p.2 ∧ p.2 < (w : ℤ))

/-- The accumulator `base_mask` after all polygons of the file are filled
into it: a pixel is foreground when some polygon covers it.  The pixel is a
`(row, col)` pair; `inPoly` receives the `(x, y) = (col, row)` point. -/
def maskFg (h w : ℕ) (polys : List (List (ℤ × ℤ))) (p : ℤ × ℤ) : Bool :=
  inGrid h w p && polys.any (fun poly => inPoly poly (p.2, p.1))

/-- A labeling of pixels by component id (0 = background). -/
abbrev Lab : Type := (ℤ × ℤ) → ℕ

/-- The 8 neighbors of a pixel (8-connectivity, as in the source's
`connectivity=8`). -/
def neighbors8 (p : ℤ × ℤ) : List (ℤ × ℤ) :=
  [(p.1 - 1, p.2 - 1), (p.1 - 1, p.2), (p.1 - 1, p.2 + 1),
   (p.1, p.2 - 1), (p.1, p.2 + 1),
   (p.1 + 1, p.2 - 1), (p.1 + 1, p.2), (p.1 + 1, p.2 + 1)]

/-- Stack-based flood fill assigning label `k` to the connected region of
foreground pixels reachable from the stack; the fuel bounds the number of
steps and is chosen large enough at the call site (at most `1 + 8·H·W`
stack entries are ever pushed). -/
def flood (fg : (ℤ × ℤ) → Bool) (k : ℕ) : ℕ → List (ℤ × ℤ) → Lab → Lab
  | 0, _, lab => lab
  | _ + 1, [], lab => lab
  | fuel + 1, p :: stack, lab =>
    if fg p = true ∧ lab p = 0 then
      flood fg k fuel (neighbors8 p ++ stack) (fun q => if q = p then k else lab q)
    else flood fg k fuel stack lab

/-- Raster-order scan of the image: each still-unlabelled foreground pixel
seeds a new component, matching the label order of
`cv2.connectedComponentsWithStats`. -/
def scanGo (fg : (ℤ × ℤ) → Bool) (fuel : ℕ) : List (ℤ × ℤ) → ℕ → Lab → ℕ × Lab
  | [], n, lab => (n, lab)
  | p :: ps, n, lab =>
    if fg p = true ∧ lab p = 0 then
      scanGo fg fuel ps (n + 1) (flood fg n fuel [p] lab)
    else scanGo fg fuel ps n lab

/-- All pixels of an `H × W` image in raster order (top-to-bottom,
left-to-right). -/
def pixList (h w : ℕ) : List (ℤ × ℤ) :=
  (List.range h).flatMap
    (fun (r : ℕ) => (List.range w).map (fun (c : ℕ) => ((r : ℤ), (c : ℤ))))

/-- Model of `cv2.connectedComponentsWithStats(base_mask, connectivity=8)`:
returns `(num_labels, labels)` with labels `1 .. num_labels - 1` assigned in
raster order of each component's first pixel. -/
def ccOfMask (h w : ℕ) (fg : (ℤ × ℤ) → Bool) : ℕ × Lab :=
  scanGo fg (9 * (h * w) + 9) (pixList h w) 1 (fun _ => 0)

/-- The pixels carrying label `i`, in raster order. -/
def compPixels (h w : ℕ) (lab : Lab) (i : ℕ) : List (ℤ × ℤ) :=
  (pixList h w).filter (fun p => lab p == i)

/-- The stats row of component `i`:
`(CC_STAT_LEFT, CC_STAT_TOP, CC_STAT_WIDTH, CC_STAT_HEIGHT, CC_STAT_AREA)`,
the pixel-extent statistics of the labelled set. -/
def statsOf (h w : ℕ) (lab : Lab) (i : ℕ) : ℤ × ℤ × ℤ × ℤ × ℕ :=
  (listMin ((compPixels h w lab i).map Prod.snd),
   listMin ((compPixels h w lab i).map Prod.fst),
   listMax ((compPixels h w lab i).map Prod.snd) -
     listMin ((compPixels h w lab i).map Prod.snd) + 1,
   listMax ((compPixels h w lab i).map Prod.fst) -
     listMin ((compPixels h w lab i).map Prod.fst) + 1,
   (compPixels h w lab i).length)

/-- `boxes.append(np.array([x, y, x + w_box, y + h_box]))` for component
`i`. -/
def boxOf (h w : ℕ) (lab : Lab) (i : ℕ) : ℤ × ℤ × ℤ × ℤ :=
  ((statsOf h w lab i).1, (statsOf h w lab i).2.1,
   (statsOf h w lab i).1 + (statsOf h w lab i).2.2.1,
   (statsOf h w lab i).2.1 + (statsOf h w lab i).2.2.2.1)

/-- `component_mask = (labels == i).astype(np.uint8)`: the `H × W` binary
grid of component `i`. -/
def maskGrid (h w : ℕ) (lab : Lab) (i : ℕ) : List (List ℕ) :=
  (List.range h).map (fun (r : ℕ) =>
    (List.range w).map (fun (c : ℕ) => if lab ((r : ℤ), (c : ℤ)) = i then 1 else 0))

/-- Embeds `extract_masks_and_bboxes(label_path, img_shape)`; `shape` is
`(H, W)`.  Returns the index-aligned mask and box lists, or the first raised
exception. -/
def extractMasksAndBboxes (lines : List (List Tok)) (shape : ℕ × ℕ) :
    Except PyErr (List (List (List ℕ)) × List (ℤ × ℤ × ℤ × ℤ)) :=
  match parsePolys shape.2 shape.1 lines with
  | .error e => .error e
  | .ok polys =>
    let fg := maskFg shape.1 shape.2 polys
    let cc := ccOfMask shape.1 shape.2 fg
    .ok ((List.range (cc.1 - 1)).map (fun j => maskGrid shape.1 shape.2 cc.2 (j + 1)),
         (List.range (cc.1 - 1)).map (fun j => boxOf shape.1 shape.2 cc.2 (j + 1)))

/-! ## Specification-side notions used by the claims -/

/-- The entry of a binary mask grid at `(row, col)` (0 outside the grid). -/
def entryAt (m : List (List ℕ)) (r c : ℕ) : ℕ := (m.getD r []).getD c 0

/-- The foreground pixels of a binary mask grid, in raster order. -/
def gridFg (m : List (List ℕ)) : List (ℤ × ℤ) :=
  (List.range m.length).flatMap (fun (r : ℕ) =>
    (List.range ((m.getD r []).length)).filterMap (fun (c : ℕ) =>
      if (m.getD r []).getD c 0 ≠ 0 then some ((r : ℤ), (c : ℤ)) else none))

/-- The corner-form bounding box `(x_min, y_min, x_max, y_max)` of a set of
`(row, col)` pixels, with exclusive max corner. -/
def bboxOfPixels (ps : List (ℤ × ℤ)) : ℤ × ℤ × ℤ × ℤ :=
  (listMin (ps.map Prod.snd), listMin (ps.map Prod.fst),
   listMax (ps.map Prod.snd) + 1, listMax (ps.map Prod.fst) + 1)

/-! ## Concrete label-file data used in counterexamples and witnesses -/

/-- The spec's scenario line `0 0.1 0.1 0.1 0.5 0.5 0.5 0.5 0.1` (a square
with 4 vertices in normalized coordinates). -/
def sqLine : List Tok :=
  [Tok.num 0, Tok.num (1/10), Tok.num (1/10), Tok.num (1/10), Tok.num (5/10),
   Tok.num (5/10), Tok.num (5/10), Tok.num (5/10), Tok.num (1/10)]

/-- The coordinate part of `sqLine`. -/
def sqCoords : List ℚ :=
  [1/10, 1/10, 1/10, 5/10, 5/10, 5/10, 5/10, 1/10]

/-- A line with exactly 5 post-class-id values (6 whitespace tokens in
total). -/
def fiveLine : List Tok :=
  [Tok.num 0, Tok.num (1/10), Tok.num (2/10), Tok.num (3/10), Tok.num (4/10),
   Tok.num (5/10)]

/-- A line whose second token does not parse as a float. -/
def badLine : List Tok := [Tok.num 0, Tok.bad]

/-- A line carrying only a class id (skipped by both transforms). -/
def shortLine : List Tok := [Tok.num 0]

/-- A line with 7 post-class-id values: it passes the extractor's length
filter but has a dangling final coordinate. -/
def oddLine : List Tok :=
  [Tok.num 0, Tok.num (1/10), Tok.num (1/10), Tok.num (1/10), Tok.num (5/10),
   Tok.num (5/10), Tok.num (5/10), Tok.num (9/10)]

/-- A degenerate triangle whose three vertices all rasterize to pixel
`(0, 0)` of a 1×3 image. -/
def dotLineA : List Tok :=
  [Tok.num 0, Tok.num 0, Tok.num 0, Tok.num 0, Tok.num 0, Tok.num 0, Tok.num 0]

/-- A degenerate triangle whose three vertices all rasterize to pixel
`(0, 2)` of a 1×3 image. -/
def dotLineB : List Tok :=
  [Tok.num 0, Tok.num (2/3), Tok.num 0, Tok.num (2/3), Tok.num 0,
   Tok.num (2/3), Tok.num 0]

/-! ## Helper lemmas: list extrema -/

theorem foldl_min_le_init {α : Type} [LinearOrder α] (l : List α) (a : α) :
    l.foldl min a ≤ a := by
  induction l generalizing a with
  | nil => simp
  | cons x xs ih =>
    simpa using le_trans (ih (min a x)) (min_le_left a x)

theorem foldl_min_le_mem {α : Type} [LinearOrder α] {l : List α} {x : α} (hx : x ∈ l) :
    ∀ a : α, l.foldl min a ≤ x := by
  induction l with
  | nil => cases hx
  | cons y ys ih =>
    intro a
    rcases List.mem_cons.mp hx with h | h
    · subst h
      simpa using le_trans (foldl_min_le_init ys (min a x)) (min_le_right a x)
    · simpa using ih h (min a y)

theorem foldl_min_cases {α : Type} [LinearOrder α] (l : List α) :
    ∀ a : α, l.foldl min a = a ∨ l.foldl min a ∈ l := by
  induction l with
  | nil => intro a; left; rfl
  | cons y ys ih =>
    intro a
    rcases ih (min a y) with h | h
    · rcases min_choice a y with h' | h'
      · left; simpa using h.trans h'
      · right; simp only [List.foldl_cons]
        rw [h, h']; exact List.mem_cons_self y ys
    · right; exact List.mem_cons_of_mem y (by simpa using h)

theorem foldl_max_init_le {α : Type} [LinearOrder α] (l : List α) (a : α) :
    a ≤ l.foldl max a := by
  induction l generalizing a with
  | nil => simp
  | cons x xs ih =>
    simpa using le_trans (le_max_left a x) (ih (max a x))

theorem foldl_max_mem_le {α : Type} [LinearOrder α] {l : List α} {x : α} (hx : x ∈ l) :
    ∀ a : α, x ≤ l.foldl max a := by
  induction l with
  | nil => cases hx
  | cons y ys ih =>
    intro a
    rcases List.mem_cons.mp hx with h | h
    · subst h
      simpa using le_trans (le_max_right a x) (foldl_max_init_le ys (max a x))
    · simpa using ih h (max a y)

theorem foldl_max_cases {α : Type} [LinearOrder α] (l : List α) :
    ∀ a : α, l.foldl max a = a ∨ l.foldl max a ∈ l := by
  induction l with
  | nil => intro a; left; rfl
  | cons y ys ih =>
    intro a
    rcases ih (max a y) with h | h
    · rcases max_choice a y with h' | h'
      · left; simpa using h.trans h'
      · right; simp only [List.foldl_cons]
        rw [h, h']; exact List.mem_cons_self y ys
    · right; exact List.mem_cons_of_mem y (by simpa using h)

theorem listMin_le_of_mem {α : Type} [LinearOrder α] [Inhabited α] {l : List α} {x : α}
    (hx : x ∈ l) : listMin l ≤ x := by
  cases l with
  | nil => cases hx
  | cons y ys =>
    rcases List.mem_cons.mp hx with h | h
    · subst h; exact foldl_min_le_init ys x
    · exact foldl_min_le_mem h y

theorem le_listMax_of_mem {α : Type} [LinearOrder α] [Inhabited α] {l : List α} {x : α}
    (hx : x ∈ l) : x ≤ listMax l := by
  cases l with
  | nil => cases hx
  | cons y ys =>
    rcases List.mem_cons.mp hx with h | h
    · subst h; exact foldl_max_init_le ys x
    · exact foldl_max_mem_le h y

theorem listMin_mem {α : Type} [LinearOrder α] [Inhabited α] {l : List α} (hl : l ≠ []) :
    listMin l ∈ l := by
  cases l with
  | nil => exact absurd rfl hl
  | cons y ys =>
    rcases foldl_min_cases ys y with h | h
    · rw [listMin, h]; exact List.mem_cons_self y ys
    · exact List.mem_cons_of_mem y (by rw [listMin]; exact h)

theorem listMax_mem {α : Type} [LinearOrder α] [Inhabited α] {l : List α} (hl : l ≠ []) :
    listMax l ∈ l := by
  cases l with
  | nil => exact absurd rfl hl
  | cons y ys =>
    rcases foldl_max_cases ys y with h | h
    · rw [listMax, h]; exact List.mem_cons_self y ys
    · exact List.mem_cons_of_mem y (by rw [listMax]; exact h)

theorem listMin_le_listMax {α : Type} [LinearOrder α] [Inhabited α] {l : List α}
    (hl : l ≠ []) : listMin l ≤ listMax l :=
  listMin_le_of_mem (listMax_mem hl)

/-! ## Helper lemmas: slicing versus vertex pairing -/

theorem evens_odds_spec :
    ∀ (n : ℕ) (l : List ℚ), l.length ≤ n → Even l.length →
      evens l = (vertexList l).map Prod.fst ∧ odds l = (vertexList l).map Prod.snd := by
  intro n
  induction n with
  | zero =>
    intro l hl _
    have hnil : l = [] := List.eq_nil_of_length_eq_zero (Nat.le_zero.mp hl)
    subst hnil
    exact ⟨rfl, rfl⟩
  | succ n ih =>
    intro l hl hev
    match l with
    | [] => exact ⟨rfl, rfl⟩
    | [x] => simp [Nat.even_iff] at hev
    | x :: y :: rest =>
      have hr : rest.length ≤ n := by
        simp only [List.length_cons] at hl; omega
      have hevr : Even rest.length := by
        simp only [List.length_cons, Nat.even_iff] at hev ⊢; omega
      obtain ⟨he, ho⟩ := ih rest hr hevr
      refine ⟨by simp [evens, vertexList, he], ?_⟩
      match rest with
      | [] => simp [odds, evens, vertexList]
      | z :: rest' =>
        have ho' : evens rest' = (vertexList (z :: rest')).map Prod.snd := by
          simpa [odds] using ho
        simp [odds, evens, vertexList, ho']

theorem evens_eq_map_fst {l : List ℚ} (hev : Even l.length) :
    evens l = (vertexList l).map Prod.fst :=
  (evens_odds_spec l.length l le_rfl hev).1

theorem odds_eq_map_snd {l : List ℚ} (hev : Even l.length) :
    odds l = (vertexList l).map Prod.snd :=
  (evens_odds_spec l.length l le_rfl hev).2

theorem vertexList_ne_nil {l : List ℚ} (h : 2 ≤ l.length) : vertexList l ≠ [] := by
  match l with
  | [] => simp at h
  | [x] => simp at h
  | x :: y :: rest => simp [vertexList]

/-! ## Helper lemmas: converter per-line and per-file behavior -/

theorem processLine_skip {cid : ℤ} {line : List Tok} {parts : List ℚ}
    (hp : floatList line = some parts) (h : parts.length < 6) :
    processLine cid line = .skip := by
  simp [processLine, hp, h]

theorem processLine_emit {cid : ℤ} {line : List Tok} {parts : List ℚ}
    (hp : floatList line = some parts) (h : ¬ parts.length < 6) :
    processLine cid line = .emit (recordOf cid parts) := by
  simp [processLine, hp, h]

theorem emitOf_skip {cid : ℤ} {line : List Tok} {parts : List ℚ}
    (hp : floatList line = some parts) (h : parts.length < 6) :
    emitOf cid line = none := by
  simp [emitOf, processLine_skip hp h]

theorem emitOf_emit {cid : ℤ} {line : List Tok} {parts : List ℚ}
    (hp : floatList line = some parts) (h : ¬ parts.length < 6) :
    emitOf cid line = some (recordOf cid parts) := by
  simp [emitOf, processLine_emit hp h]

theorem convertFileLines_ok (cid : ℤ) (lines : List (List Tok))
    (hall : lines.all (fun l => (floatList l).isSome) = true) :
    convertFileLines cid lines = .ok (lines.filterMap (emitOf cid)) := by
  induction lines with
  | nil => rfl
  | cons l ls ih =>
    rw [List.all_cons, Bool.and_eq_true] at hall
    obtain ⟨parts, hp⟩ := Option.isSome_iff_exists.mp hall.1
    by_cases hlen : parts.length < 6
    · simp [convertFileLines, processLine_skip hp hlen, List.filterMap_cons,
        emitOf_skip hp hlen, ih hall.2]
    · simp [convertFileLines, processLine_emit hp hlen, List.filterMap_cons,
        emitOf_emit hp hlen, ih hall.2, Except.map]

/-- C1 (corrected): the converter's filter is `len(parts) < 6` where `parts`
still includes the class id, so a line is skipped exactly when it has fewer
than 6 parsed values in TOTAL, i.e. fewer than 5 post-class-id values; every
line with at least 5 post-class-id values (at least 6 tokens) produces
exactly one output record.  In particular a line with exactly 5
post-class-id values is NOT skipped, contrary to the original claim. -/
theorem C1_theorem (cid : ℤ) (lines : List (List Tok)) (line : List Tok) (parts : List ℚ)
    (hall : lines.all (fun l => (floatList l).isSome) = true)
    (hp : floatList line = some parts) :
    convertFileLines cid lines = .ok (lines.filterMap (emitOf cid)) ∧
    (parts.length < 6 ↔ emitOf cid line = none) ∧
    (6 ≤ parts.length → emitOf cid line = some (recordOf cid parts)) := by
  refine ⟨convertFileLines_ok cid lines hall, ⟨fun h => emitOf_skip hp h, fun h => ?_⟩,
    fun h => emitOf_emit hp (by omega)⟩
  by_contra hlen
  rw [emitOf_emit hp hlen] at h
  cases h

/-- C1 witness: the empty directory file satisfies the parse hypothesis, and
the 6-token line `0 0.1 0.2 0.3 0.4 0.5` (exactly 5 post-class-id values)
instantiates the per-line laws. -/
theorem C1_witness :
    ([] : List (List Tok)).all (fun l => (floatList l).isSome) = true ∧
    floatList fiveLine = some [0, 1/10, 2/10, 3/10, 4/10, 5/10] ∧
    (convertFileLines 0 [] = .ok (([] : List (List Tok)).filterMap (emitOf 0)) ∧
      (([0, 1/10, 2/10, 3/10, 4/10, 5/10] : List ℚ).length < 6 ↔
        emitOf 0 fiveLine = none) ∧
      (6 ≤ ([0, 1/10, 2/10, 3/10, 4/10, 5/10] : List ℚ).length →
        emitOf 0 fiveLine = some (recordOf 0 [0, 1/10, 2/10, 3/10, 4/10, 5/10]))) :=
  ⟨rfl, rfl, C1_theorem 0 [] fiveLine [0, 1/10, 2/10, 3/10, 4/10, 5/10] rfl rfl⟩

/-- C1 counterexample: the claim says a line with exactly 5 post-class-id
values (6 whitespace-separated tokens) emits no bounding-box line, but the
code emits exactly one record for `0 0.1 0.2 0.3 0.4 0.5`. -/
theorem C1_counterexample :
    convertFileLines 0 [fiveLine] = .ok ["0 0.300000 0.300000 0.400000 0.200000"] := by
  with_unfolding_all decide

/-! ## Helper lemmas: bad tokens raise -/

theorem floatList_none_of_bad {line : List Tok} (h : Tok.bad ∈ line) :
    floatList line = none := by
  induction line with
  | nil => cases h
  | cons t ts ih =>
    cases t with
    | bad => rfl
    | num q =>
      have hts : Tok.bad ∈ ts := by
        rcases List.mem_cons.mp h with h' | h'
        · cases h'
        · exact h'
      simp [floatList, ih hts]

theorem exceptMap_isOk {ε α β : Type} (f : α → β) (e : Except ε α) :
    (e.map f).isOk = e.isOk := by
  cases e <;> rfl

theorem convertFileLines_notOk {cid : ℤ} {lines : List (List Tok)}
    (h : ∃ l ∈ lines, processLine cid l = .err) :
    (convertFileLines cid lines).isOk = false := by
  induction lines with
  | nil => obtain ⟨l, hl, _⟩ := h; cases hl
  | cons l ls ih =>
    obtain ⟨l', hl', he⟩ := h
    rcases hsk : processLine cid l with _ | _ | s
    · simp [convertFileLines, hsk, Except.isOk, Except.toBool]
    · have hl'' : l' ∈ ls := by
        rcases List.mem_cons.mp hl' with h1 | h1
        · subst h1; rw [he] at hsk; cases hsk
        · exact h1
      simpa [convertFileLines, hsk] using ih ⟨l', hl'', he⟩
    · have hl'' : l' ∈ ls := by
        rcases List.mem_cons.mp hl' with h1 | h1
        · subst h1; rw [he] at hsk; cases hsk
        · exact h1
      have hmap : (convertFileLines cid (l :: ls)).isOk =
          (convertFileLines cid ls).isOk := by
        simp only [convertFileLines, hsk]
        exact exceptMap_isOk _ _
      rw [hmap]
      exact ih ⟨l', hl'', he⟩

theorem lineToPolygon_err_of_bad {w h : ℕ} {line : List Tok} (hbad : Tok.bad ∈ line) :
    lineToPolygon w h line = .error .valueError := by
  simp [lineToPolygon, floatList_none_of_bad hbad]

theorem parsePolys_notOk {w h : ℕ} {lines : List (List Tok)}
    (hex : ∃ l ∈ lines, ∃ e, lineToPolygon w h l = .error e) :
    (parsePolys w h lines).isOk = false := by
  induction lines with
  | nil => obtain ⟨l, hl, _⟩ := hex; cases hl
  | cons l ls ih =>
    obtain ⟨l', hl', e', he⟩ := hex
    rcases hlp : lineToPolygon w h l with e'' | p
    · simp [parsePolys, hlp, Except.isOk, Except.toBool]
    · have hl'' : l' ∈ ls := by
        rcases List.mem_cons.mp hl' with h1 | h1
        · subst h1; rw [he] at hlp; cases hlp
        · exact h1
      have ihh := ih ⟨l', hl'', e', he⟩
      cases p with
      | none => simpa [parsePolys, hlp] using ihh
      | some poly =>
        have hmap : (parsePolys w h (l :: ls)).isOk = (parsePolys w h ls).isOk := by
          simp only [parsePolys, hlp]
          exact exceptMap_isOk _ _
        rw [hmap]; exact ihh

theorem extract_notOk {lines : List (List Tok)} {shape : ℕ × ℕ}
    (h : (parsePolys shape.2 shape.1 lines).isOk = false) :
    (extractMasksAndBboxes lines shape).isOk = false := by
  rcases hp : parsePolys shape.2 shape.1 lines with e | polys
  · simp [extractMasksAndBboxes, hp, Except.isOk, Except.toBool]
  · rw [hp] at h; cases h

/-- C2 (corrected): a line containing a token on which `float()` fails makes
BOTH `convert_polygons_to_bboxes` and `extract_masks_and_bboxes` raise an
unhandled `ValueError` (modelled: return an error), aborting that file's
processing; the line is NOT silently skipped and the remaining lines are NOT
processed.  Only the too-few-values length check skips lines silently. -/
theorem C2_theorem (cid : ℤ) (w h : ℕ) (lines : List (List Tok)) (line : List Tok)
    (hmem : line ∈ lines) (hbad : Tok.bad ∈ line) :
    (convertFileLines cid lines).isOk = false ∧
    (extractMasksAndBboxes lines (h, w)).isOk = false := by
  constructor
  · exact convertFileLines_notOk
      ⟨line, hmem, by simp [processLine, floatList_none_of_bad hbad]⟩
  · exact extract_notOk (parsePolys_notOk
      ⟨line, hmem, .valueError, lineToPolygon_err_of_bad hbad⟩)

/-- C2 witness: the one-line file whose line is `0 abc`. -/
theorem C2_witness :
    badLine ∈ [badLine] ∧ Tok.bad ∈ badLine ∧
    ((convertFileLines 0 [badLine]).isOk = false ∧
      (extractMasksAndBboxes [badLine] (4, 4)).isOk = false) :=
  ⟨by simp, by simp [badLine], C2_theorem 0 4 4 [badLine] badLine (by simp) (by simp [badLine])⟩

/-- C2 counterexample: on the file whose single line is `0 abc`, the claim
predicts that both functions skip the line and return normally, but both
return a `ValueError`. -/
theorem C2_counterexample :
    convertFileLines 0 [badLine] = .error .valueError ∧
    extractMasksAndBboxes [badLine] (4, 4) = .error .valueError :=
  ⟨by decide, by decide⟩

/-- C3: for every polygon record the converter processes (here stated for
well-formed polygon records: at least 6 coordinates, evenly paired), the
emitted record is the 6-decimal format of the quadruple `bboxOfParts`, whose
x/y centers equal the midpoints of the vertex-coordinate extrema (hence lie
within the `[min, max]` interval of the respective coordinates) and whose
width/height equal the extrema spans exactly. -/
theorem C3_theorem (cid : ℤ) (line : List Tok) (c : ℚ) (coords : List ℚ)
    (hp : floatList line = some (c :: coords)) (h6 : 6 ≤ coords.length)
    (hev : Even coords.length) :
    processLine cid line = .emit (recordOf cid (c :: coords)) ∧
    (bboxOfParts (c :: coords)).1 =
      (listMin ((vertexList coords).map Prod.fst) +
        listMax ((vertexList coords).map Prod.fst)) / 2 ∧
    listMin ((vertexList coords).map Prod.fst) ≤ (bboxOfParts (c :: coords)).1 ∧
    (bboxOfParts (c :: coords)).1 ≤ listMax ((vertexList coords).map Prod.fst) ∧
    (bboxOfParts (c :: coords)).2.1 =
      (listMin ((vertexList coords).map Prod.snd) +
        listMax ((vertexList coords).map Prod.snd)) / 2 ∧
    listMin ((vertexList coords).map Prod.snd) ≤ (bboxOfParts (c :: coords)).2.1 ∧
    (bboxOfParts (c :: coords)).2.1 ≤ listMax ((vertexList coords).map Prod.snd) ∧
    (bboxOfParts (c :: coords)).2.2.1 =
      listMax ((vertexList coords).map Prod.fst) -
        listMin ((vertexList coords).map Prod.fst) ∧
    (bboxOfParts (c :: coords)).2.2.2 =
      listMax ((vertexList coords).map Prod.snd) -
        listMin ((vertexList coords).map Prod.snd) := by
  have he := evens_eq_map_fst hev
  have ho := odds_eq_map_snd hev
  have hvne : vertexList coords ≠ [] := vertexList_ne_nil (by omega)
  have hxne : (vertexList coords).map Prod.fst ≠ [] := by
    simpa using hvne
  have hyne : (vertexList coords).map Prod.snd ≠ [] := by
    simpa using hvne
  have hx : listMin ((vertexList coords).map Prod.fst) ≤
      listMax ((vertexList coords).map Prod.fst) := listMin_le_listMax hxne
  have hy : listMin ((vertexList coords).map Prod.snd) ≤
      listMax ((vertexList coords).map Prod.snd) := listMin_le_listMax hyne
  have hbb : bboxOfParts (c :: coords) =
      ((listMin ((vertexList coords).map Prod.fst) +
          listMax ((vertexList coords).map Prod.fst)) / 2,
       (listMin ((vertexList coords).map Prod.snd) +
          listMax ((vertexList coords).map Prod.snd)) / 2,
       listMax ((vertexList coords).map Prod.fst) -
          listMin ((vertexList coords).map Prod.fst),
       listMax ((vertexList coords).map Prod.snd) -
          listMin ((vertexList coords).map Prod.snd)) := by
    simp [bboxOfParts, he, ho]
  refine ⟨processLine_emit hp (by simp; omega), ?_⟩
  rw [hbb]
  refine ⟨rfl, by dsimp only; linarith, by dsimp only; linarith, rfl,
    by dsimp only; linarith, by dsimp only; linarith, rfl, rfl⟩

/-- C3 witness: the square scenario line `0 0.1 0.1 0.1 0.5 0.5 0.5 0.5 0.1`
(8 coordinates, 4 vertices). -/
theorem C3_witness :
    floatList sqLine = some ((0 : ℚ) :: sqCoords) ∧ 6 ≤ sqCoords.length ∧
    Even sqCoords.length ∧
    (processLine 0 sqLine = .emit (recordOf 0 ((0 : ℚ) :: sqCoords)) ∧
      (bboxOfParts ((0 : ℚ) :: sqCoords)).1 =
        (listMin ((vertexList sqCoords).map Prod.fst) +
          listMax ((vertexList sqCoords).map Prod.fst)) / 2 ∧
      listMin ((vertexList sqCoords).map Prod.fst) ≤ (bboxOfParts ((0 : ℚ) :: sqCoords)).1 ∧
      (bboxOfParts ((0 : ℚ) :: sqCoords)).1 ≤ listMax ((vertexList sqCoords).map Prod.fst) ∧
      (bboxOfParts ((0 : ℚ) :: sqCoords)).2.1 =
        (listMin ((vertexList sqCoords).map Prod.snd) +
          listMax ((vertexList sqCoords).map Prod.snd)) / 2 ∧
      listMin ((vertexList sqCoords).map Prod.snd) ≤
        (bboxOfParts ((0 : ℚ) :: sqCoords)).2.1 ∧
      (bboxOfParts ((0 : ℚ) :: sqCoords)).2.1 ≤
        listMax ((vertexList sqCoords).map Prod.snd) ∧
      (bboxOfParts ((0 : ℚ) :: sqCoords)).2.2.1 =
        listMax ((vertexList sqCoords).map Prod.fst) -
          listMin ((vertexList sqCoords).map Prod.fst) ∧
      (bboxOfParts ((0 : ℚ) :: sqCoords)).2.2.2 =
        listMax ((vertexList sqCoords).map Prod.snd) -
          listMin ((vertexList sqCoords).map Prod.snd)) :=
  ⟨rfl, by decide, by decide, C3_theorem 0 sqLine 0 sqCoords rfl (by decide) (by decide)⟩

/-- C4: the single input line `0 0.1 0.1 0.1 0.5 0.5 0.5 0.5 0.1` with class
id override 0 yields exactly the output line
`0 0.300000 0.300000 0.400000 0.400000` (6 digits after each decimal point,
caller-supplied class id).  The converter never consults image dimensions —
`convertFileContent` takes none — so the output is trivially independent of
them. -/
theorem C4_theorem :
    convertFileContent 0 [sqLine] = .ok "0 0.300000 0.300000 0.400000 0.400000" := by
  with_unfolding_all decide

/-! ## Helper lemmas: directory store -/

theorem findVal_writeFile_self (name c : String) (st : List (String × String)) :
    findVal name (writeFile name c st) = some c := by
  induction st with
  | nil => simp [writeFile, findVal]
  | cons p rest ih =>
    obtain ⟨n, c'⟩ := p
    by_cases h : n = name
    · simp [writeFile, h, findVal]
    · simp [writeFile, h, findVal, ih]

theorem findVal_writeFile_ne {n name : String} (hne : n ≠ name) (c : String)
    (st : List (String × String)) :
    findVal n (writeFile name c st) = findVal n st := by
  induction st with
  | nil => simp [writeFile, findVal, Ne.symm hne]
  | cons p rest ih =>
    obtain ⟨n', c'⟩ := p
    by_cases h : n' = name
    · subst h
      simp [writeFile, findVal, Ne.symm hne]
    · by_cases h2 : n' = n
      · simp [writeFile, h, findVal, h2, hne]
      · simp [writeFile, h, findVal, h2, ih]

theorem writeFile_findVal_eq {name c : String} {st : List (String × String)}
    (h : findVal name st = some c) : writeFile name c st = st := by
  induction st with
  | nil => simp [findVal] at h
  | cons p rest ih =>
    obtain ⟨n', c'⟩ := p
    by_cases hn : n' = name
    · subst hn
      simp [findVal] at h
      simp [writeFile, h]
    · simp [findVal, hn] at h
      simp [writeFile, hn, ih h]

theorem findVal_writeAll_not_mem {name : String} {outs : List (String × String)}
    (h : name ∉ outs.map Prod.fst) (st : List (String × String)) :
    findVal name (writeAll outs st) = findVal name st := by
  induction outs generalizing st with
  | nil => rfl
  | cons p rest ih =>
    simp only [List.map_cons, List.mem_cons, not_or] at h
    have hstep : writeAll (p :: rest) st = writeAll rest (writeFile p.1 p.2 st) := by
      simp [writeAll]
    rw [hstep, ih h.2, findVal_writeFile_ne h.1]

theorem findVal_writeAll_mem {outs : List (String × String)}
    (hnd : (outs.map Prod.fst).Nodup) {name c : String} (hm : (name, c) ∈ outs)
    (st : List (String × String)) :
    findVal name (writeAll outs st) = some c := by
  induction outs generalizing st with
  | nil => cases hm
  | cons p rest ih =>
    rw [List.map_cons, List.nodup_cons] at hnd
    have hstep : writeAll (p :: rest) st = writeAll rest (writeFile p.1 p.2 st) := by
      simp [writeAll]
    rcases List.mem_cons.mp hm with h | h
    · have hp1 : p.1 = name := by rw [← h]
      have hp2 : p.2 = c := by rw [← h]
      rw [hstep, findVal_writeAll_not_mem (by rw [hp1] at hnd; exact hnd.1) _,
        hp1, hp2, findVal_writeFile_self]
    · rw [hstep]
      exact ih hnd.2 h _

theorem writeAll_of_findVal {outs st : List (String × String)}
    (h : ∀ p ∈ outs, findVal p.1 st = some p.2) : writeAll outs st = st := by
  induction outs with
  | nil => rfl
  | cons p rest ih =>
    have hstep : writeAll (p :: rest) st = writeAll rest (writeFile p.1 p.2 st) := by
      simp [writeAll]
    rw [hstep, writeFile_findVal_eq (h p (List.mem_cons_self p rest))]
    exact ih (fun p' hp' => h p' (List.mem_cons_of_mem _ hp'))

theorem writeAll_idem {outs st : List (String × String)}
    (hnd : (outs.map Prod.fst).Nodup) :
    writeAll outs (writeAll outs st) = writeAll outs st :=
  writeAll_of_findVal (fun p hp => findVal_writeAll_mem hnd (by simpa using hp) st)

theorem convertDir_fst_sublist {cid : ℤ} {files : List (String × List (List Tok))}
    {outs : List (String × String)} (h : convertDir cid files = .ok outs) :
    List.Sublist (outs.map Prod.fst) (files.map Prod.fst) := by
  induction files generalizing outs with
  | nil =>
    injection h with h'
    subst h'
    simp
  | cons p fs ih =>
    obtain ⟨name, lines⟩ := p
    by_cases hend : pyEndsWith name ".txt" = true
    · rcases hcf : convertFileContent cid lines with e | content
      · simp only [convertDir, if_pos hend, hcf] at h
        cases h
      · rcases hcd : convertDir cid fs with e' | rest
        · simp only [convertDir, if_pos hend, hcf, hcd] at h
          cases h
        · simp only [convertDir, if_pos hend, hcf, hcd, Except.ok.injEq] at h
          subst h
          exact List.Sublist.cons₂ name (ih hcd)
    · simp only [convertDir, if_neg hend] at h
      exact List.Sublist.cons name (ih h)

/-! ## Helper lemmas: record strings never end in a newline -/

theorem digitChar_ne_newline (n : ℕ) : digitChar n ≠ '\n' := by
  unfold digitChar
  split <;> decide

theorem append_data_getLast (s t : String) (h : t.data ≠ []) :
    (s ++ t).data.getLast? = t.data.getLast? := by
  rw [String.data_append, List.getLast?_append]
  cases hx : t.data.getLast? with
  | none =>
    have := List.getLast?_isSome.mpr h
    rw [hx] at this
    cases this
  | some c => rfl

theorem format6_data_facts (q : ℚ) :
    (format6 q).data ≠ [] ∧ (format6 q).data.getLast? ≠ some '\n' := by
  have hsix : (sixDigits ((pyRound (q * 1000000)).natAbs % 1000000)).data =
      [digitChar ((pyRound (q * 1000000)).natAbs % 1000000 / 100000 % 10),
       digitChar ((pyRound (q * 1000000)).natAbs % 1000000 / 10000 % 10),
       digitChar ((pyRound (q * 1000000)).natAbs % 1000000 / 1000 % 10),
       digitChar ((pyRound (q * 1000000)).natAbs % 1000000 / 100 % 10),
       digitChar ((pyRound (q * 1000000)).natAbs % 1000000 / 10 % 10),
       digitChar ((pyRound (q * 1000000)).natAbs % 1000000 % 10)] := rfl
  constructor
  · unfold format6
    rw [String.data_append, hsix]
    simp
  · unfold format6
    rw [append_data_getLast _ _ (by rw [hsix]; simp), hsix]
    simp only [List.getLast?]
    intro hcon
    exact digitChar_ne_newline _ (by injection hcon)

theorem recordOf_data_facts (cid : ℤ) (parts : List ℚ) :
    (recordOf cid parts).data ≠ [] ∧ (recordOf cid parts).data.getLast? ≠ some '\n' := by
  have hf := format6_data_facts (bboxOfParts parts).2.2.2
  constructor
  · unfold recordOf
    rw [String.data_append]
    simp [hf.1]
  · unfold recordOf
    rw [append_data_getLast _ _ hf.1]
    exact hf.2

theorem joinLines_data_facts :
    ∀ (recs : List String), recs ≠ [] →
      (∀ r ∈ recs, r.data ≠ [] ∧ r.data.getLast? ≠ some '\n') →
      (joinLines recs).data ≠ [] ∧ (joinLines recs).data.getLast? ≠ some '\n' := by
  intro recs
  induction recs with
  | nil => intro h; exact absurd rfl h
  | cons l rest ih =>
    intro _ hall
    cases rest with
    | nil => simpa [joinLines] using hall l (List.mem_cons_self l [])
    | cons l' rest' =>
      have ihh := ih (by simp) (fun r hr => hall r (List.mem_cons_of_mem _ hr))
      have hj : joinLines (l :: l' :: rest') = (l ++ "\n") ++ joinLines (l' :: rest') := rfl
      constructor
      · rw [hj, String.data_append]
        simp [ihh.1]
      · rw [hj, append_data_getLast _ _ ihh.1]
        exact ihh.2

theorem convertFileLines_mem_record {cid : ℤ} {lines : List (List Tok)} {recs : List String}
    (h : convertFileLines cid lines = .ok recs) :
    ∀ r ∈ recs, ∃ parts, r = recordOf cid parts := by
  induction lines generalizing recs with
  | nil =>
    injection h with h'
    subst h'
    intro r hr
    cases hr
  | cons l ls ih =>
    intro r hr
    rcases hfl : floatList l with _ | parts
    · simp [convertFileLines, processLine, hfl] at h
    · by_cases hlen : parts.length < 6
      · rw [show convertFileLines cid (l :: ls) =
            convertFileLines cid ls by
              simp [convertFileLines, processLine_skip hfl hlen]] at h
        exact ih h r hr
      · have hstep : convertFileLines cid (l :: ls) =
            (convertFileLines cid ls).map (fun rest => recordOf cid parts :: rest) := by
          simp [convertFileLines, processLine_emit hfl hlen]
        rw [hstep] at h
        cases hcv : convertFileLines cid ls with
        | error e => rw [hcv] at h; cases h
        | ok rest =>
          rw [hcv] at h
          simp only [Except.map, Except.ok.injEq] at h
          subst h
          rcases List.mem_cons.mp hr with h1 | h1
          · exact ⟨parts, h1⟩
          · exact ih hcv r h1

/-- C5: running the converter twice with the same label directory, output
directory and class id is idempotent — the second run succeeds and rewrites
every output file with byte-identical contents, leaving the state unchanged —
and every successfully produced output file content ends without a trailing
newline.  (The label directory is assumed distinct from the output directory,
as in the source's calls, and its listing has no duplicate names.) -/
theorem C5_theorem (cid : ℤ) (s s' : DirState) (lines : List (List Tok)) (out : String)
    (hnd : (s.labelFiles.map Prod.fst).Nodup)
    (hok : runConvert cid s = .ok s')
    (hcf : convertFileContent cid lines = .ok out) :
    runConvert cid s' = .ok s' ∧ out.data.getLast? ≠ some '\n' := by
  constructor
  · rcases hcd : convertDir cid s.labelFiles with e | outs
    · rw [runConvert, hcd] at hok
      cases hok
    · rw [runConvert, hcd] at hok
      simp only [Except.map, Except.ok.injEq] at hok
      subst hok
      have houtnd : (outs.map Prod.fst).Nodup :=
        List.Nodup.sublist (convertDir_fst_sublist hcd) hnd
      rw [runConvert]
      simp only [hcd, Except.map]
      rw [writeAll_idem houtnd]
  · rcases hfl : convertFileLines cid lines with e | recs
    · rw [convertFileContent, hfl] at hcf
      cases hcf
    · rw [convertFileContent, hfl] at hcf
      simp only [Except.map, Except.ok.injEq] at hcf
      subst hcf
      cases recs with
      | nil => simp [joinLines]
      | cons a rest =>
        refine (joinLines_data_facts (a :: rest) (by simp) ?_).2
        intro r hr
        obtain ⟨parts, hparts⟩ := convertFileLines_mem_record hfl r hr
        rw [hparts]
        exact recordOf_data_facts cid parts

/-- C5 witness: a one-file label directory whose only line is skipped; the
run writes `a.txt` with empty content and a second run reproduces the state
byte for byte. -/
theorem C5_witness :
    ((DirState.mk [("a.txt", [shortLine])] []).labelFiles.map Prod.fst).Nodup ∧
    runConvert 0 (DirState.mk [("a.txt", [shortLine])] []) =
      .ok (DirState.mk [("a.txt", [shortLine])] [("a.txt", "")]) ∧
    convertFileContent 0 [] = .ok "" ∧
    (runConvert 0 (DirState.mk [("a.txt", [shortLine])] [("a.txt", "")]) =
        .ok (DirState.mk [("a.txt", [shortLine])] [("a.txt", "")]) ∧
      ("" : String).data.getLast? ≠ some '\n') :=
  ⟨by decide, by with_unfolding_all decide, rfl,
    C5_theorem 0 (DirState.mk [("a.txt", [shortLine])] [])
      (DirState.mk [("a.txt", [shortLine])] [("a.txt", "")]) [] ""
      (by decide) (by with_unfolding_all decide) rfl⟩

/-! ## Helper lemmas: flood fill and the component scan -/

theorem flood_stable (fg : (ℤ × ℤ) → Bool) (k : ℕ) :
    ∀ (fuel : ℕ) (stack : List (ℤ × ℤ)) (lab : Lab) (q : ℤ × ℤ), lab q ≠ 0 →
      flood fg k fuel stack lab q = lab q := by
  intro fuel
  induction fuel with
  | zero => intro stack lab q _; rfl
  | succ fuel ih =>
    intro stack lab q hq
    cases stack with
    | nil => rfl
    | cons p rest =>
      by_cases hc : fg p = true ∧ lab p = 0
      · simp only [flood]
        rw [if_pos hc]
        have hqp : q ≠ p := fun he => hq (by rw [he]; exact hc.2)
        have hlab' : (if q = p then k else lab q) = lab q := if_neg hqp
        rw [ih _ _ q (by rw [hlab']; exact hq)]
        exact hlab'
      · simp only [flood]
        rw [if_neg hc]
        exact ih _ _ q hq

theorem flood_le (fg : (ℤ × ℤ) → Bool) (k b : ℕ) (hkb : k ≤ b) :
    ∀ (fuel : ℕ) (stack : List (ℤ × ℤ)) (lab : Lab), (∀ q, lab q ≤ b) →
      ∀ q, flood fg k fuel stack lab q ≤ b := by
  intro fuel
  induction fuel with
  | zero => intro stack lab hlab q; exact hlab q
  | succ fuel ih =>
    intro stack lab hlab q
    cases stack with
    | nil => exact hlab q
    | cons p rest =>
      by_cases hc : fg p = true ∧ lab p = 0
      · simp only [flood]
        rw [if_pos hc]
        refine ih _ _ (fun q' => ?_) q
        by_cases hqp : q' = p
        · simp [hqp, hkb]
        · simp [hqp]; exact hlab q'
      · simp only [flood]
        rw [if_neg hc]
        exact ih _ _ hlab q

theorem flood_fgOnly (fg : (ℤ × ℤ) → Bool) (k : ℕ) :
    ∀ (fuel : ℕ) (stack : List (ℤ × ℤ)) (lab : Lab),
      (∀ q, lab q ≠ 0 → fg q = true) →
      ∀ q, flood fg k fuel stack lab q ≠ 0 → fg q = true := by
  intro fuel
  induction fuel with
  | zero => intro stack lab hlab q; exact hlab q
  | succ fuel ih =>
    intro stack lab hlab q
    cases stack with
    | nil => exact hlab q
    | cons p rest =>
      by_cases hc : fg p = true ∧ lab p = 0
      · simp only [flood]
        rw [if_pos hc]
        refine ih _ _ (fun q' hq' => ?_) q
        by_cases hqp : q' = p
        · rw [hqp]; exact hc.1
        · simp [hqp] at hq'; exact hlab q' hq'
      · simp only [flood]
        rw [if_neg hc]
        exact ih _ _ hlab q

theorem flood_seed (fg : (ℤ × ℤ) → Bool) (k : ℕ) (hk : k ≠ 0) (fuel : ℕ)
    (hfuel : 1 ≤ fuel) (stack : List (ℤ × ℤ)) (lab : Lab) (p : ℤ × ℤ)
    (hfg : fg p = true) (h0 : lab p = 0) :
    flood fg k fuel (p :: stack) lab p = k := by
  cases fuel with
  | zero => exact absurd hfuel (by omega)
  | succ fuel =>
    simp only [flood]
    rw [if_pos ⟨hfg, h0⟩]
    have hlab' : (if p = p then k else lab p) = k := if_pos rfl
    rw [flood_stable fg k fuel _ _ p (by rw [hlab']; exact hk)]
    exact hlab'

theorem scanGo_inv (fg : (ℤ × ℤ) → Bool) (fuel : ℕ) (hfuel : 1 ≤ fuel) :
    ∀ (ps : List (ℤ × ℤ)) (n : ℕ) (lab : Lab), 1 ≤ n →
      (∀ q, lab q < n) → (∀ q, lab q ≠ 0 → fg q = true) →
      (∀ k, 1 ≤ k → k < n → ∃ p, lab p = k ∧ fg p = true) →
      1 ≤ (scanGo fg fuel ps n lab).1 ∧
      (∀ q, (scanGo fg fuel ps n lab).2 q < (scanGo fg fuel ps n lab).1) ∧
      (∀ q, (scanGo fg fuel ps n lab).2 q ≠ 0 → fg q = true) ∧
      (∀ k, 1 ≤ k → k < (scanGo fg fuel ps n lab).1 →
        ∃ p, (scanGo fg fuel ps n lab).2 p = k ∧ fg p = true) := by
  intro ps
  induction ps with
  | nil => intro n lab h1 h2 h3 h4; exact ⟨h1, h2, h3, h4⟩
  | cons p ps ih =>
    intro n lab h1 h2 h3 h4
    by_cases hc : fg p = true ∧ lab p = 0
    · have hrw : scanGo fg fuel (p :: ps) n lab =
          scanGo fg fuel ps (n + 1) (flood fg n fuel [p] lab) := by
        simp only [scanGo]; rw [if_pos hc]
      rw [hrw]
      refine ih (n + 1) _ (by omega) ?_ ?_ ?_
      · intro q
        have hb := flood_le fg n n le_rfl fuel [p] lab (fun q' => by have := h2 q'; omega) q
        omega
      · exact flood_fgOnly fg n fuel [p] lab h3
      · intro k hk1 hk2
        by_cases hkn : k < n
        · obtain ⟨p', hp', hfp'⟩ := h4 k hk1 hkn
          exact ⟨p', by rw [flood_stable fg n fuel [p] lab p' (by rw [hp']; omega), hp'],
            hfp'⟩
        · have hkeq : k = n := by omega
          subst hkeq
          exact ⟨p, flood_seed fg k (by omega) fuel hfuel [] lab p hc.1 hc.2, hc.1⟩
    · have hrw : scanGo fg fuel (p :: ps) n lab = scanGo fg fuel ps n lab := by
        simp only [scanGo]; rw [if_neg hc]
      rw [hrw]
      exact ih n lab h1 h2 h3 h4

theorem scanGo_all_false (fg : (ℤ × ℤ) → Bool) (hfg : ∀ p, fg p = false) (fuel : ℕ) :
    ∀ (ps : List (ℤ × ℤ)) (n : ℕ) (lab : Lab), scanGo fg fuel ps n lab = (n, lab) := by
  intro ps
  induction ps with
  | nil => intro n lab; rfl
  | cons p ps ih =>
    intro n lab
    have hnc : ¬ (fg p = true ∧ lab p = 0) := by simp [hfg p]
    simp only [scanGo]
    rw [if_neg hnc]
    exact ih n lab

theorem ccOfMask_facts (h w : ℕ) (fg : (ℤ × ℤ) → Bool) :
    1 ≤ (ccOfMask h w fg).1 ∧
    (∀ q, (ccOfMask h w fg).2 q < (ccOfMask h w fg).1) ∧
    (∀ q, (ccOfMask h w fg).2 q ≠ 0 → fg q = true) ∧
    (∀ k, 1 ≤ k → k < (ccOfMask h w fg).1 →
      ∃ p, (ccOfMask h w fg).2 p = k ∧ fg p = true) := by
  unfold ccOfMask
  exact scanGo_inv fg (9 * (h * w) + 9) (by omega) (pixList h w) 1 (fun _ => 0)
    le_rfl (fun q => Nat.zero_lt_one) (fun q hq => absurd rfl hq)
    (fun k hk1 hk2 => absurd hk1 (by omega))

/-! ## Helper lemmas: pixel lists and mask grids -/

theorem mem_pixList {h w : ℕ} {p : ℤ × ℤ} : p ∈ pixList h w ↔ inGrid h w p = true := by
  unfold pixList inGrid
  simp only [List.mem_flatMap, List.mem_map, List.mem_range, decide_eq_true_eq]
  constructor
  · rintro ⟨r, hr, c, hc, rfl⟩
    refine ⟨by simp, by simpa using hr, by simp, by simpa using hc⟩
  · rintro ⟨h1, h2, h3, h4⟩
    refine ⟨p.1.toNat, by omega, p.2.toNat, by omega, ?_⟩
    rw [Prod.ext_iff]
    constructor
    · simp [Int.toNat_of_nonneg h1]
    · simp [Int.toNat_of_nonneg h3]

theorem mem_compPixels {h w : ℕ} {lab : Lab} {i : ℕ} {p : ℤ × ℤ} :
    p ∈ compPixels h w lab i ↔ inGrid h w p = true ∧ lab p = i := by
  unfold compPixels
  rw [List.mem_filter, mem_pixList]
  simp [beq_iff_eq]

theorem getD_map_range {β : Type} (f : ℕ → β) {n i : ℕ} (d : β) (hi : i < n) :
    ((List.range n).map f).getD i d = f i := by
  rw [List.getD_eq_getElem?_getD, List.getElem?_map, List.getElem?_range hi]
  rfl

theorem getD_map_range_ge {β : Type} (f : ℕ → β) {n i : ℕ} (d : β) (hi : n ≤ i) :
    ((List.range n).map f).getD i d = d := by
  rw [List.getD_eq_getElem?_getD, List.getElem?_eq_none (by simpa using hi)]
  rfl

theorem entryAt_maskGrid (h w : ℕ) (lab : Lab) (k : ℕ) (r c : ℕ) :
    entryAt (maskGrid h w lab k) r c =
      if r < h ∧ c < w ∧ lab ((r : ℤ), (c : ℤ)) = k then 1 else 0 := by
  unfold entryAt maskGrid
  by_cases hr : r < h
  · rw [getD_map_range _ _ hr]
    by_cases hc : c < w
    · rw [getD_map_range _ _ hc]
      by_cases hl : lab ((r : ℤ), (c : ℤ)) = k <;> simp [hr, hc, hl]
    · rw [getD_map_range_ge _ _ (by omega)]
      simp [hc]
  · rw [getD_map_range_ge _ _ (by omega)]
    simp [hr, List.getD]

theorem filter_map_eq_filterMap {α β : Type} (l : List α) (g : α → β) (q : β → Bool) :
    (l.map g).filter q =
      l.filterMap (fun a => if q (g a) = true then some (g a) else none) := by
  induction l with
  | nil => rfl
  | cons a l ih =>
    by_cases hqa : q (g a) = true <;>
      simp [List.filter_cons, List.filterMap_cons, hqa, ih]

theorem gridFg_maskGrid (h w : ℕ) (lab : Lab) (k : ℕ) :
    gridFg (maskGrid h w lab k) = compPixels h w lab k := by
  unfold gridFg compPixels pixList
  rw [List.filter_flatMap]
  have hlen : (maskGrid h w lab k).length = h := by simp [maskGrid]
  rw [hlen]
  refine List.flatMap_congr ?_
  intro r hr
  rw [List.mem_range] at hr
  have hrow : (maskGrid h w lab k).getD r [] =
      (List.range w).map (fun (c : ℕ) => if lab ((r : ℤ), (c : ℤ)) = k then 1 else 0) := by
    unfold maskGrid
    exact getD_map_range _ _ hr
  rw [hrow]
  simp only [List.length_map, List.length_range]
  rw [filter_map_eq_filterMap]
  refine List.filterMap_congr ?_
  intro c hc
  rw [List.mem_range] at hc
  rw [getD_map_range _ _ hc]
  by_cases hl : lab ((r : ℤ), (c : ℤ)) = k <;> simp [hl]

theorem extract_ok_parts {lines : List (List Tok)} {h w : ℕ}
    {masks : List (List (List ℕ))} {boxes : List (ℤ × ℤ × ℤ × ℤ)}
    (hok : extractMasksAndBboxes lines (h, w) = .ok (masks, boxes)) :
    ∃ polys, parsePolys w h lines = .ok polys ∧
      masks = (List.range ((ccOfMask h w (maskFg h w polys)).1 - 1)).map
        (fun j => maskGrid h w (ccOfMask h w (maskFg h w polys)).2 (j + 1)) ∧
      boxes = (List.range ((ccOfMask h w (maskFg h w polys)).1 - 1)).map
        (fun j => boxOf h w (ccOfMask h w (maskFg h w polys)).2 (j + 1)) := by
  rcases hp : parsePolys w h lines with e | polys
  · simp only [extractMasksAndBboxes, hp] at hok
    cases hok
  · refine ⟨polys, rfl, ?_⟩
    simp only [extractMasksAndBboxes, hp, Except.ok.injEq, Prod.mk.injEq] at hok
    exact ⟨hok.1.symm, hok.2.symm⟩

/-- C6: for every label file and image shape on which the extractor returns,
the mask and box lists have equal length, and for each index `i` the
corner-form bounding box of the foreground pixels of `masks[i]` equals
`boxes[i] = [x, y, x + width, y + height]` computed from that component's
pixel-extent statistics. -/
theorem C6_theorem (lines : List (List Tok)) (h w : ℕ)
    (masks : List (List (List ℕ))) (boxes : List (ℤ × ℤ × ℤ × ℤ)) (i : ℕ)
    (hok : extractMasksAndBboxes lines (h, w) = .ok (masks, boxes))
    (hi : i < masks.length) :
    masks.length = boxes.length ∧
    bboxOfPixels (gridFg (masks.getD i [])) = boxes.getD i (0, 0, 0, 0) := by
  obtain ⟨polys, hp, hm, hb⟩ := extract_ok_parts hok
  subst hm
  subst hb
  refine ⟨by simp, ?_⟩
  simp only [List.length_map, List.length_range] at hi
  rw [getD_map_range _ _ hi, getD_map_range _ _ hi, gridFg_maskGrid]
  simp only [bboxOfPixels, boxOf, statsOf, Prod.mk.injEq]
  exact ⟨trivial, trivial, by ring, by ring⟩

/-- C6 witness: a 1×3 image with two single-pixel polygons gives two
components whose mask extents match their boxes. -/
theorem C6_witness :
    extractMasksAndBboxes [dotLineA, dotLineB] (1, 3) =
      .ok ([[[1, 0, 0]], [[0, 0, 1]]], [(0, 0, 1, 1), (2, 0, 3, 1)]) ∧
    (0 : ℕ) < ([[[1, 0, 0]], [[0, 0, 1]]] : List (List (List ℕ))).length ∧
    (([[[1, 0, 0]], [[0, 0, 1]]] : List (List (List ℕ))).length =
        ([(0, 0, 1, 1), (2, 0, 3, 1)] : List (ℤ × ℤ × ℤ × ℤ)).length ∧
      bboxOfPixels (gridFg (([[[1, 0, 0]], [[0, 0, 1]]] :
          List (List (List ℕ))).getD 0 [])) =
        ([(0, 0, 1, 1), (2, 0, 3, 1)] : List (ℤ × ℤ × ℤ × ℤ)).getD 0 (0, 0, 0, 0)) :=
  ⟨by with_unfolding_all decide, by decide,
    C6_theorem [dotLineA, dotLineB] 1 3 [[[1, 0, 0]], [[0, 0, 1]]]
      [(0, 0, 1, 1), (2, 0, 3, 1)] 0 (by with_unfolding_all decide) (by decide)⟩

/-- C7: the per-instance masks returned by the extractor are pairwise
disjoint — for `i ≠ j` the pixel-wise AND (here: pointwise `min` of the
binary entries, at every position) is zero, because a pixel carries exactly
one component label. -/
theorem C7_theorem (lines : List (List Tok)) (h w : ℕ)
    (masks : List (List (List ℕ))) (boxes : List (ℤ × ℤ × ℤ × ℤ)) (i j r c : ℕ)
    (hok : extractMasksAndBboxes lines (h, w) = .ok (masks, boxes))
    (hi : i < masks.length) (hj : j < masks.length) (hij : i ≠ j) :
    min (entryAt (masks.getD i []) r c) (entryAt (masks.getD j []) r c) = 0 := by
  obtain ⟨polys, hp, hm, hb⟩ := extract_ok_parts hok
  subst hm
  simp only [List.length_map, List.length_range] at hi hj
  rw [getD_map_range _ _ hi, getD_map_range _ _ hj, entryAt_maskGrid, entryAt_maskGrid]
  by_cases h1 : r < h ∧ c < w ∧
      (ccOfMask h w (maskFg h w polys)).2 ((r : ℤ), (c : ℤ)) = i + 1
  · rw [if_pos h1, if_neg (fun h2 => hij (by
      have := h1.2.2.symm.trans h2.2.2
      omega))]
    simp
  · rw [if_neg h1]
    simp

/-- C7 witness: the two disjoint single-pixel components of the 1×3 image,
checked at pixel `(0, 0)`. -/
theorem C7_witness :
    extractMasksAndBboxes [dotLineA, dotLineB] (1, 3) =
      .ok ([[[1, 0, 0]], [[0, 0, 1]]], [(0, 0, 1, 1), (2, 0, 3, 1)]) ∧
    (0 : ℕ) < ([[[1, 0, 0]], [[0, 0, 1]]] : List (List (List ℕ))).length ∧
    (1 : ℕ) < ([[[1, 0, 0]], [[0, 0, 1]]] : List (List (List ℕ))).length ∧
    (0 : ℕ) ≠ 1 ∧
    min (entryAt (([[[1, 0, 0]], [[0, 0, 1]]] : List (List (List ℕ))).getD 0 []) 0 0)
      (entryAt (([[[1, 0, 0]], [[0, 0, 1]]] : List (List (List ℕ))).getD 1 []) 0 0) = 0 :=
  ⟨by with_unfolding_all decide, by decide, by decide, by decide,
    C7_theorem [dotLineA, dotLineB] 1 3 [[[1, 0, 0]], [[0, 0, 1]]]
      [(0, 0, 1, 1), (2, 0, 3, 1)] 0 1 0 0 (by with_unfolding_all decide)
      (by decide) (by decide) (by decide)⟩

/-! ## Helper lemma: files with only skipped lines -/

theorem parsePolys_all_skip {w h : ℕ} {lines : List (List Tok)}
    (hs : ∀ l ∈ lines, lineToPolygon w h l = .ok none) :
    parsePolys w h lines = .ok [] := by
  induction lines with
  | nil => rfl
  | cons l ls ih =>
    have h1 := hs l (List.mem_cons_self l ls)
    simp only [parsePolys, h1]
    exact ih (fun l' hl' => hs l' (List.mem_cons_of_mem _ hl'))

/-- C8: a label file in which every line is skipped by the extractor's
length filter (in particular an empty file) yields the all-background
accumulator mask, connected-component labeling finds no foreground
component, and the extractor returns two empty lists without raising, for
every image shape. -/
theorem C8_theorem (lines : List (List Tok)) (h w : ℕ)
    (hskip : lines.all (fun l => decide (lineToPolygon w h l = .ok none)) = true) :
    extractMasksAndBboxes lines (h, w) = .ok ([], []) := by
  have hs : ∀ l ∈ lines, lineToPolygon w h l = .ok none := by
    rw [List.all_eq_true] at hskip
    intro l hl
    simpa using hskip l hl
  have hpp : parsePolys w h lines = .ok [] := parsePolys_all_skip hs
  have hfg : ∀ p, maskFg h w ([] : List (List (ℤ × ℤ))) p = false := by
    intro p
    simp [maskFg]
  have hcc : ccOfMask h w (maskFg h w ([] : List (List (ℤ × ℤ)))) =
      (1, fun _ => 0) :=
    scanGo_all_false _ hfg (9 * (h * w) + 9) (pixList h w) 1 (fun _ => 0)
  simp [extractMasksAndBboxes, hpp, hcc]

/-- C8 witness: the file containing a lone class id on a 2×3 image. -/
theorem C8_witness :
    ([shortLine] : List (List Tok)).all
      (fun l => decide (lineToPolygon 3 2 l = .ok none)) = true ∧
    extractMasksAndBboxes [shortLine] (2, 3) = .ok ([], []) :=
  ⟨by decide, C8_theorem [shortLine] 2 3 (by decide)⟩

/-! ## Helper lemma: the vertex-pairing loop and odd coordinate counts -/

theorem buildPoly_parity (w h : ℕ) :
    ∀ (n : ℕ) (coords : List ℚ), coords.length ≤ n →
      (Even coords.length →
        buildPoly w h coords = .ok ((vertexList coords).map
          (fun v => (pyRound (v.1 * (w : ℚ)), pyRound (v.2 * (h : ℚ)))))) ∧
      (¬ Even coords.length → buildPoly w h coords = .error .indexError) := by
  intro n
  induction n with
  | zero =>
    intro coords hl
    have hnil : coords = [] := List.eq_nil_of_length_eq_zero (Nat.le_zero.mp hl)
    subst hnil
    exact ⟨fun _ => rfl, fun hodd => absurd (by simp) hodd⟩
  | succ n ih =>
    intro coords hl
    match coords with
    | [] => exact ⟨fun _ => rfl, fun hodd => absurd (by simp) hodd⟩
    | [x] => exact ⟨fun hev => absurd hev (by simp [Nat.even_iff]), fun _ => rfl⟩
    | x :: y :: rest =>
      have hr := ih rest (by simp only [List.length_cons] at hl; omega)
      constructor
      · intro hev
        have hevr : Even rest.length := by
          simp only [List.length_cons, Nat.even_iff] at hev ⊢; omega
        simp only [buildPoly, hr.1 hevr, Except.map, vertexList, List.map_cons]
      · intro hodd
        have hoddr : ¬ Even rest.length := by
          simp only [List.length_cons, Nat.even_iff] at hodd ⊢; omega
        simp only [buildPoly, hr.2 hoddr, Except.map]

/-- C9 (corrected): a line that passes the extractor's length filter is
processed without an out-of-range access only when its coordinate count is
even; a line with an odd coordinate count of at least 7 reads `coords[i+1]`
past the end of the list and raises `IndexError`, so the vertex-pairing loop
is NOT total over lines passing the filter. -/
theorem C9_theorem (w h : ℕ) (line : List Tok) (items : List ℚ)
    (hp : floatList line = some items) (h6 : 6 ≤ (items.drop 1).length) :
    (Even (items.drop 1).length →
      lineToPolygon w h line = .ok (some ((vertexList (items.drop 1)).map
        (fun v => (pyRound (v.1 * (w : ℚ)), pyRound (v.2 * (h : ℚ))))))) ∧
    (¬ Even (items.drop 1).length →
      lineToPolygon w h line = .error .indexError) := by
  have hbp := buildPoly_parity w h (items.drop 1).length (items.drop 1) le_rfl
  constructor
  · intro hev
    simp only [lineToPolygon, hp, if_neg (by omega : ¬ (items.drop 1).length < 6),
      hbp.1 hev, Except.map]
  · intro hodd
    simp only [lineToPolygon, hp, if_neg (by omega : ¬ (items.drop 1).length < 6),
      hbp.2 hodd, Except.map]

/-- C9 witness: the 8-coordinate square line is processed in bounds on a 3×3
image. -/
theorem C9_witness :
    floatList sqLine = some ((0 : ℚ) :: sqCoords) ∧
    6 ≤ (((0 : ℚ) :: sqCoords).drop 1).length ∧
    ((Even (((0 : ℚ) :: sqCoords).drop 1).length →
      lineToPolygon 3 3 sqLine = .ok (some ((vertexList (((0 : ℚ) :: sqCoords).drop 1)).map
        (fun v => (pyRound (v.1 * (3 : ℚ)), pyRound (v.2 * (3 : ℚ))))))) ∧
    (¬ Even (((0 : ℚ) :: sqCoords).drop 1).length →
      lineToPolygon 3 3 sqLine = .error .indexError)) :=
  ⟨rfl, by decide, C9_theorem 3 3 sqLine ((0 : ℚ) :: sqCoords) rfl (by decide)⟩

/-- C9 counterexample: the line `0 0.1 0.1 0.1 0.5 0.5 0.5 0.9` has 7
post-class-id values, passes the `len(coords) < 6` filter, and the claim
says it is processed without an out-of-range access, but `coords[7]` raises
`IndexError` and the extraction aborts. -/
theorem C9_counterexample :
    extractMasksAndBboxes [oddLine] (4, 4) = .error .indexError := by
  decide

/-- C10: every box the extractor returns for an `(H, W)` image satisfies
`0 ≤ x_min < x_max ≤ W` and `0 ≤ y_min < y_max ≤ H` (never degenerate), and
the index-aligned mask is an `H × W` grid with entries in `{0, 1}` and at
least one foreground pixel. -/
theorem C10_theorem (lines : List (List Tok)) (h w : ℕ)
    (masks : List (List (List ℕ))) (boxes : List (ℤ × ℤ × ℤ × ℤ)) (i : ℕ)
    (hok : extractMasksAndBboxes lines (h, w) = .ok (masks, boxes))
    (hi : i < boxes.length) :
    0 ≤ (boxes.getD i (0, 0, 0, 0)).1 ∧
    (boxes.getD i (0, 0, 0, 0)).1 < (boxes.getD i (0, 0, 0, 0)).2.2.1 ∧
    (boxes.getD i (0, 0, 0, 0)).2.2.1 ≤ (w : ℤ) ∧
    0 ≤ (boxes.getD i (0, 0, 0, 0)).2.1 ∧
    (boxes.getD i (0, 0, 0, 0)).2.1 < (boxes.getD i (0, 0, 0, 0)).2.2.2 ∧
    (boxes.getD i (0, 0, 0, 0)).2.2.2 ≤ (h : ℤ) ∧
    (masks.getD i []).length = h ∧
    (masks.getD i []).all (fun row => row.length == w &&
      row.all (fun v => v == 0 || v == 1)) = true ∧
    gridFg (masks.getD i []) ≠ [] := by
  obtain ⟨polys, hp, hm, hb⟩ := extract_ok_parts hok
  subst hm
  subst hb
  simp only [List.length_map, List.length_range] at hi
  obtain ⟨hn1, hlt, hfgOnly, hach⟩ := ccOfMask_facts h w (maskFg h w polys)
  obtain ⟨p0, hp0, hfp0⟩ := hach (i + 1) (by omega) (by omega)
  have hin0 : inGrid h w p0 = true := by
    unfold maskFg at hfp0
    rw [Bool.and_eq_true] at hfp0
    exact hfp0.1
  have hmem0 : p0 ∈ compPixels h w (ccOfMask h w (maskFg h w polys)).2 (i + 1) :=
    mem_compPixels.mpr ⟨hin0, hp0⟩
  have hcne : compPixels h w (ccOfMask h w (maskFg h w polys)).2 (i + 1) ≠ [] :=
    List.ne_nil_of_mem hmem0
  have hbound : ∀ p ∈ compPixels h w (ccOfMask h w (maskFg h w polys)).2 (i + 1),
      0 ≤ p.1 ∧ p.1 < (h : ℤ) ∧ 0 ≤ p.2 ∧ p.2 < (w : ℤ) := by
    intro p hp'
    have hg := (mem_compPixels.mp hp').1
    unfold inGrid at hg
    simpa using hg
  have hxne : (compPixels h w (ccOfMask h w (maskFg h w polys)).2 (i + 1)).map
      Prod.snd ≠ [] := by
    simpa using hcne
  have hyne : (compPixels h w (ccOfMask h w (maskFg h w polys)).2 (i + 1)).map
      Prod.fst ≠ [] := by
    simpa using hcne
  have hxmem : ∀ x ∈ (compPixels h w (ccOfMask h w (maskFg h w polys)).2 (i + 1)).map
      Prod.snd, 0 ≤ x ∧ x < (w : ℤ) := by
    intro x hx
    obtain ⟨p, hpmem, rfl⟩ := List.mem_map.mp hx
    exact ⟨(hbound p hpmem).2.2.1, (hbound p hpmem).2.2.2⟩
  have hymem : ∀ y ∈ (compPixels h w (ccOfMask h w (maskFg h w polys)).2 (i + 1)).map
      Prod.fst, 0 ≤ y ∧ y < (h : ℤ) := by
    intro y hy
    obtain ⟨p, hpmem, rfl⟩ := List.mem_map.mp hy
    exact ⟨(hbound p hpmem).1, (hbound p hpmem).2.1⟩
  have hminx := hxmem _ (listMin_mem hxne)
  have hmaxx := hxmem _ (listMax_mem hxne)
  have hminy := hymem _ (listMin_mem hyne)
  have hmaxy := hymem _ (listMax_mem hyne)
  have hmmx := listMin_le_listMax hxne
  have hmmy := listMin_le_listMax hyne
  rw [getD_map_range _ _ hi, getD_map_range _ _ hi]
  simp only [boxOf, statsOf]
  refine ⟨hminx.1, by omega, by omega, hminy.1, by omega, by omega, by simp [maskGrid], ?_, ?_⟩
  · rw [List.all_eq_true]
    intro row hrow
    rw [maskGrid] at hrow
    obtain ⟨r, hr, rfl⟩ := List.mem_map.mp hrow
    rw [Bool.and_eq_true]
    constructor
    · simp
    · rw [List.all_eq_true]
      intro v hv
      obtain ⟨c, hc, rfl⟩ := List.mem_map.mp hv
      by_cases hl : (ccOfMask h w (maskFg h w polys)).2 ((r : ℤ), (c : ℤ)) = i + 1 <;>
        simp [hl]
  · rw [gridFg_maskGrid]
    exact hcne

/-- C10 witness: the first component of the 1×3 two-component image. -/
theorem C10_witness :
    extractMasksAndBboxes [dotLineA, dotLineB] (1, 3) =
      .ok ([[[1, 0, 0]], [[0, 0, 1]]], [(0, 0, 1, 1), (2, 0, 3, 1)]) ∧
    (0 : ℕ) < ([(0, 0, 1, 1), (2, 0, 3, 1)] : List (ℤ × ℤ × ℤ × ℤ)).length ∧
    (0 ≤ (([(0, 0, 1, 1), (2, 0, 3, 1)] : List (ℤ × ℤ × ℤ × ℤ)).getD 0 (0, 0, 0, 0)).1 ∧
      (([(0, 0, 1, 1), (2, 0, 3, 1)] : List (ℤ × ℤ × ℤ × ℤ)).getD 0 (0, 0, 0, 0)).1 <
        (([(0, 0, 1, 1), (2, 0, 3, 1)] : List (ℤ × ℤ × ℤ × ℤ)).getD 0 (0, 0, 0, 0)).2.2.1 ∧
      (([(0, 0, 1, 1), (2, 0, 3, 1)] : List (ℤ × ℤ × ℤ × ℤ)).getD 0 (0, 0, 0, 0)).2.2.1 ≤
        ((3 : ℕ) : ℤ) ∧
      0 ≤ (([(0, 0, 1, 1), (2, 0, 3, 1)] : List (ℤ × ℤ × ℤ × ℤ)).getD 0 (0, 0, 0, 0)).2.1 ∧
      (([(0, 0, 1, 1), (2, 0, 3, 1)] : List (ℤ × ℤ × ℤ × ℤ)).getD 0 (0, 0, 0, 0)).2.1 <
        (([(0, 0, 1, 1), (2, 0, 3, 1)] : List (ℤ × ℤ × ℤ × ℤ)).getD 0 (0, 0, 0, 0)).2.2.2 ∧
      (([(0, 0, 1, 1), (2, 0, 3, 1)] : List (ℤ × ℤ × ℤ × ℤ)).getD 0 (0, 0, 0, 0)).2.2.2 ≤
        ((1 : ℕ) : ℤ) ∧
      (([[[1, 0, 0]], [[0, 0, 1]]] : List (List (List ℕ))).getD 0 []).length = 1 ∧
      (([[[1, 0, 0]], [[0, 0, 1]]] : List (List (List ℕ))).getD 0 []).all
        (fun row => row.length == 3 && row.all (fun v => v == 0 || v == 1)) = true ∧
      gridFg (([[[1, 0, 0]], [[0, 0, 1]]] : List (List (List ℕ))).getD 0 []) ≠ []) :=
  ⟨by with_unfolding_all decide, by decide,
    C10_theorem [dotLineA, dotLineB] 1 3 [[[1, 0, 0]], [[0, 0, 1]]]
      [(0, 0, 1, 1), (2, 0, 3, 1)] 0 (by with_unfolding_all decide) (by decide)⟩

end PotholePrep
